import Mathlib

/-!
Verification development for the itinerary-optimization core of `app.py`
(TravelOptimizer / run_optimization_logic).

The embedding is shallow: Python dicts of POI fields become a Lean structure,
the travel-time dictionary becomes an association list, the greedy day/period
packer and the simulated-annealing loop become structurally recursive
functions.  Randomness (`random.shuffle`, `random.sample`, `random.random`)
is threaded as explicit oracles: a shuffle function, a stream of index pairs
and a stream of acceptance booleans; theorems quantify over the oracles, so
they hold for every realization of the randomness.  The `ValueError` that
`random.sample` raises when the population has fewer than two elements is
modelled with `Except`.  Float arithmetic is idealized as exact rational
arithmetic; `int(x)` on the nonnegative values produced by geodesic
distances is the floor.
-/

attribute [local semireducible] Rat.mul Rat.inv Rat.add Rat.sub

namespace Roteiro

/-- Model of a POI record (a Python dict in `app.py`).  `ptype` is the
`type` field; `period` and `transit_prev` are `Option` because the
corresponding dict keys may be absent. -/
structure POI where
  id : Nat
  name : String
  lat : ℚ
  lon : ℚ
  ptype : String
  time_min : ℤ
  cost : ℚ
  day : Nat
  period : Option String
  transit_prev : Option ℤ
deriving DecidableEq

/-- Constant `WALKING_SPEED_KMH = 5.0` from `app.py`. -/
def WALKING_SPEED_KMH : ℚ := 5

/-- Constant `DRIVING_SPEED_KMH = 35.0` from `app.py`. -/
def DRIVING_SPEED_KMH : ℚ := 35

/-- Constant `TOLERANCIA_MINUTOS = 30` from `app.py`. -/
def TOLERANCIA_MINUTOS : ℤ := 30

/-- The travel-time dictionary `dist_matrix`, keyed by ordered id pairs. -/
abbrev DistMatrix := List ((Nat × Nat) × ℤ)

/-- Python's `int((dist / speed) * 60)`: for the nonnegative distances
returned by `geodesic(...)` truncation toward zero is the floor. -/
def travel_minutes (dist_km : ℚ) (speed_kmh : ℚ) : ℤ :=
  ⌊dist_km / speed_kmh * 60⌋

/-- Lookup in an association list, first match wins (used on the reversed
insertion list, so that it models Python dict lookup where the last
insertion wins). -/
def dict_get : DistMatrix → (Nat × Nat) → Option ℤ
  | [], _ => none
  | (k, v) :: rest, key => if key = k then some v else dict_get rest key

/-- `TravelOptimizer._precompute_distances`: one entry per ordered pair of
distinct-id nodes of `pois + [hotel]`; speed is driving when the origin's
`type` is `hotel`, walking otherwise.  `g` is the geodesic-distance
function (km) applied to the two records' coordinates. -/
def precompute_distances (g : POI → POI → ℚ) (pois : List POI) (hotel : POI) :
    DistMatrix :=
  let all_nodes := pois ++ [hotel]
  all_nodes.flatMap (fun p1 =>
    all_nodes.filterMap (fun p2 =>
      if p1.id = p2.id then none
      else some ((p1.id, p2.id),
        travel_minutes (g p1 p2)
          (if p1.ptype = "hotel" then DRIVING_SPEED_KMH else WALKING_SPEED_KMH))))

/-- `TravelOptimizer._get_dist_time`: dict lookup with default `0`.
The insertion list is reversed so the last insertion wins, as in a dict. -/
def get_dist_time (m : DistMatrix) (id1 id2 : Nat) : ℤ :=
  (dict_get m.reverse (id1, id2)).getD 0

/-- Result of one first-fit scan of the pending list for one period. -/
structure PackResult where
  placed : List POI
  remaining : List POI
  travel : ℤ
  count : Nat
deriving DecidableEq

/-- Result of `TravelOptimizer._evaluate_schedule`. -/
structure EvalResult where
  schedule : List POI
  visited_count : Nat
  total_travel : ℤ
deriving DecidableEq

/-- One inner `while i < len(pendentes)` loop of `_evaluate_schedule`:
a single forward scan over the pending list; a POI that fits is copied,
stamped with day, period and `transit_prev`, and removed from pending,
otherwise the scan moves on. -/
def pack_pass (m : DistMatrix) (maxMin : ℤ) (dia : Nat) (per : String) :
    List POI → POI → ℤ → PackResult
  | [], _, _ => ⟨[], [], 0, 0⟩
  | poi :: rest, loc_atual, tempo_gasto =>
    let travel := get_dist_time m loc_atual.id poi.id
    let cost := travel + poi.time_min
    if tempo_gasto + cost ≤ maxMin then
      let r := pack_pass m maxMin dia per rest poi (tempo_gasto + cost)
      ⟨{ poi with day := dia, period := some per, transit_prev := some travel } ::
        r.placed, r.remaining, travel + r.travel, r.count + 1⟩
    else
      let r := pack_pass m maxMin dia per rest loc_atual tempo_gasto
      ⟨r.placed, poi :: r.remaining, r.travel, r.count⟩

/-- The day loop `while pendentes and dia <= 10` of `_evaluate_schedule`;
`fuel` is the number of days still allowed (10 at the top call, matching
`dia` running from 1 to 10).  The afternoon starts from the last morning
placement, or from the hotel if the morning placed nothing; if neither
period placed anything the loop breaks. -/
def eval_loop (m : DistMatrix) (mM mT : ℤ) (hotel : POI) :
    Nat → Nat → List POI → EvalResult
  | 0, _, _ => ⟨[], 0, 0⟩
  | fuel + 1, dia, pendentes =>
    if pendentes.isEmpty then ⟨[], 0, 0⟩
    else
      let manha := pack_pass m mM dia "Manhã" pendentes hotel 0
      let loc_tarde := manha.placed.getLast?.getD hotel
      let tarde := pack_pass m mT dia "Tarde" manha.remaining loc_tarde 0
      if manha.placed.isEmpty && tarde.placed.isEmpty then ⟨[], 0, 0⟩
      else
        let r := eval_loop m mM mT hotel fuel (dia + 1) tarde.remaining
        ⟨manha.placed ++ tarde.placed ++ r.schedule,
          manha.count + tarde.count + r.visited_count,
          manha.travel + tarde.travel + r.total_travel⟩

/-- The `TravelOptimizer` object: input POIs, hotel, the two period budgets
in minutes (hours × 60 plus the 30-minute tolerance) and the precomputed
travel-time dictionary. -/
structure TravelOptimizer where
  pois : List POI
  hotel : POI
  max_min_manha : ℤ
  max_min_tarde : ℤ
  dist_matrix : DistMatrix
deriving DecidableEq

/-- `TravelOptimizer.__init__`. -/
def TravelOptimizer.make (g : POI → POI → ℚ) (pois : List POI) (hotel : POI)
    (max_h_manha max_h_tarde : Nat) : TravelOptimizer :=
  { pois := pois
    hotel := hotel
    max_min_manha := (max_h_manha : ℤ) * 60 + TOLERANCIA_MINUTOS
    max_min_tarde := (max_h_tarde : ℤ) * 60 + TOLERANCIA_MINUTOS
    dist_matrix := precompute_distances g pois hotel }

/-- `TravelOptimizer._evaluate_schedule` on an ordered candidate list. -/
def TravelOptimizer.evaluate_schedule (o : TravelOptimizer)
    (ordered_pois : List POI) : EvalResult :=
  eval_loop o.dist_matrix o.max_min_manha o.max_min_tarde o.hotel 10 1 ordered_pois

/-- Energy `-(visited*10000) + total_travel` of an evaluation result. -/
def energyOf (r : EvalResult) : ℤ :=
  -((r.visited_count : ℤ) * 10000) + r.total_travel

/-- Error message modelling the `ValueError` raised by
`random.sample(range(n), 2)` when `n < 2`. -/
def ERR_SAMPLE : String := "ValueError: sample larger than population"

/-- The in-place swap
`new[idx1], new[idx2] = new[idx2], new[idx1]` on a copied list
(`random.sample` guarantees both positions are valid, in which case both
lookups succeed; the fallback branch is unreachable in real runs). -/
def sample_swap (cur : List POI) (i j : Nat) : List POI :=
  match cur.get? i, cur.get? j with
  | some a, some b => (cur.set i b).set j a
  | _, _ => cur

/-- The annealing loop of `solve_simulated_annealing`.  `swapAt i` is the
pair of positions returned by `random.sample` at iteration `i` and
`accept i` is the outcome of `random.random() < exp(-delta/temp)` there
(the temperature only enters through this oracle); `delta < 0` short-circuits
the random draw, as in Python's `or`.  The best schedule/energy pair is
updated inside the acceptance branch exactly as in the source. -/
def sa_loop (o : TravelOptimizer) (swapAt : Nat → Nat × Nat)
    (accept : Nat → Bool) :
    Nat → Nat → List POI → ℤ → List POI → ℤ → Except String (List POI × ℤ)
  | 0, _, _, _, best_schedule, best_energy => .ok (best_schedule, best_energy)
  | k + 1, i, current_solution, current_energy, best_schedule, best_energy =>
    if current_solution.length < 2 then .error ERR_SAMPLE
    else
      let new_solution := sample_swap current_solution (swapAt i).1 (swapAt i).2
      let r := o.evaluate_schedule new_solution
      let new_energy := energyOf r
      let delta := new_energy - current_energy
      if delta < 0 ∨ accept i = true then
        if new_energy < best_energy then
          sa_loop o swapAt accept k (i + 1) new_solution new_energy
            r.schedule new_energy
        else
          sa_loop o swapAt accept k (i + 1) new_solution new_energy
            best_schedule best_energy
      else
        sa_loop o swapAt accept k (i + 1) current_solution current_energy
          best_schedule best_energy

/-- Ghost observer of the annealing loop: the list of
(schedule, energy) pairs evaluated at each iteration, replaying exactly the
control flow of `sa_loop` (used only to state best-so-far properties). -/
def sa_observed (o : TravelOptimizer) (swapAt : Nat → Nat × Nat)
    (accept : Nat → Bool) :
    Nat → Nat → List POI → ℤ → List (List POI × ℤ)
  | 0, _, _, _ => []
  | k + 1, i, current_solution, current_energy =>
    if current_solution.length < 2 then []
    else
      let new_solution := sample_swap current_solution (swapAt i).1 (swapAt i).2
      let r := o.evaluate_schedule new_solution
      let new_energy := energyOf r
      let delta := new_energy - current_energy
      (r.schedule, new_energy) ::
        (if delta < 0 ∨ accept i = true then
          sa_observed o swapAt accept k (i + 1) new_solution new_energy
        else
          sa_observed o swapAt accept k (i + 1) current_solution current_energy)

/-- The fresh hotel dict prepended to the final list by
`solve_simulated_annealing` (day 0, period `Base`; the keys `cost` and
`transit_prev` are absent in the source dict, modelled by the defaults
`0` and `none`). -/
def hotel_entry (o : TravelOptimizer) : POI :=
  { id := o.hotel.id
    name := o.hotel.name
    lat := o.hotel.lat
    lon := o.hotel.lon
    ptype := "hotel"
    time_min := 0
    cost := 0
    day := 0
    period := some "Base"
    transit_prev := none }

/-- Tail of `solve_simulated_annealing`: the hotel entry, then the best
schedule, then a copy of every input POI never placed by the best schedule,
stamped `day = 0`, `period = '-'`. -/
def assemble_final (o : TravelOptimizer) (best_schedule : List POI) : List POI :=
  let visited_ids := best_schedule.map POI.id
  hotel_entry o :: best_schedule ++
    (o.pois.filter (fun p => decide (p.id ∉ visited_ids))).map
      (fun p => { p with day := 0, period := some "-" })

/-- `TravelOptimizer.solve_simulated_annealing`.  `shuffle` models
`random.shuffle` on the copied POI list; `iterations` is the loop bound
(3000 at the call site in `run_optimization_logic`). -/
def TravelOptimizer.solve_simulated_annealing (o : TravelOptimizer)
    (shuffle : List POI → List POI) (swapAt : Nat → Nat × Nat)
    (accept : Nat → Bool) (iterations : Nat) : Except String (List POI) :=
  let current_solution := shuffle o.pois
  let r0 := o.evaluate_schedule current_solution
  let e0 := energyOf r0
  (sa_loop o swapAt accept iterations 0 current_solution e0 r0.schedule e0).map
    (fun br => assemble_final o br.1)

/-- Status message for a missing hotel. -/
def MSG_NO_HOTEL : String := "Defina um Hotel/Base."

/-- Status message asking the user to add visit POIs. -/
def MSG_NO_VISITS : String := "Adicione locais do tipo \x27Visita\x27 para gerar roteiro."

/-- Status message for a completed optimization. -/
def MSG_DONE : String := "Otimização concluída!"

/-- Tail of `run_optimization_logic` after the optimizer has run: the
records whose id is not in the optimized output are mutated in place to
`day = 0`, `period = '-'` (observable in the returned list state), and the
mutated leftovers are appended after the optimized schedule. -/
def merge_others (pois : List POI) (r : Except String (List POI)) :
    Except String (Option (List POI) × String × List POI) :=
  r.map (fun optimized_schedule =>
    let optimized_ids := optimized_schedule.map POI.id
    let pois_after := pois.map (fun p =>
      if p.id ∈ optimized_ids then p
      else { p with day := 0, period := some "-" })
    (some (optimized_schedule ++
        pois_after.filter (fun p => decide (p.id ∉ optimized_ids))),
      MSG_DONE, pois_after))

/-- `run_optimization_logic`.  The returned triple is
(result-or-null, message, final state of the caller's POI list): the third
component makes the in-place `o['day'] = 0; o['period'] = '-'` mutation of
the records outside the optimized output observable.  An uncaught
`ValueError` from the annealing step surfaces as `.error`. -/
def run_optimization_logic (g : POI → POI → ℚ) (shuffle : List POI → List POI)
    (swapAt : Nat → Nat × Nat) (accept : Nat → Bool)
    (pois : List POI) (max_h_manha max_h_tarde : Nat) :
    Except String (Option (List POI) × String × List POI) :=
  match pois.find? (fun p => p.ptype == "hotel") with
  | none => .ok (none, MSG_NO_HOTEL, pois)
  | some hotel =>
    let visit_pois := pois.filter (fun p => p.ptype == "visit")
    if visit_pois.isEmpty then .ok (some pois, MSG_NO_VISITS, pois)
    else
      merge_others pois
        ((TravelOptimizer.make g visit_pois hotel max_h_manha
          max_h_tarde).solve_simulated_annealing shuffle swapAt accept 3000)

/-- Observer: combined travel-plus-duration minutes carried by one schedule
entry (its stamped transit plus its visit duration). -/
def entryCost (e : POI) : ℤ := e.transit_prev.getD 0 + e.time_min

/-- Observer: total accumulated (travel + duration) minutes of the schedule
entries assigned to one (day, period) cell. -/
def periodLoad (sched : List POI) (d : Nat) (per : String) : ℤ :=
  ((sched.filter (fun e => decide (e.day = d ∧ e.period = some per))).map
    entryCost).sum

/-- Observer: the schedule entry `e` is a stamped copy of some record of
`S` (same id, same duration). -/
def entryFrom (S : List POI) (e : POI) : Prop :=
  ∃ x, x ∈ S ∧ x.id = e.id ∧ x.time_min = e.time_min

/-- Concrete geodesic function for colocated test points (all coordinates
equal, hence all pairwise geodesic distances 0). -/
def gzero : POI → POI → ℚ := fun _ _ => 0

/-- Concrete geodesic function returning 7 km for every pair. -/
def gseven : POI → POI → ℚ := fun _ _ => 7

/-- Concrete swap oracle: `random.sample` returns positions 0 and 1. -/
def oracle_swap01 : Nat → Nat × Nat := fun _ => (0, 1)

/-- Concrete acceptance oracle: every uphill move is rejected. -/
def oracle_reject : Nat → Bool := fun _ => false

/-- Concrete hotel record at the origin. -/
def hotelW : POI :=
  { id := 0, name := "Hotel", lat := 0, lon := 0, ptype := "hotel",
    time_min := 0, cost := 0, day := 0, period := none, transit_prev := none }

/-- Concrete visit POI (60 min) at the origin. -/
def visitA : POI :=
  { id := 1, name := "A", lat := 0, lon := 0, ptype := "visit",
    time_min := 60, cost := 0, day := 0, period := none, transit_prev := none }

/-- Concrete visit POI (60 min) at the origin. -/
def visitB : POI :=
  { id := 2, name := "B", lat := 0, lon := 0, ptype := "visit",
    time_min := 60, cost := 0, day := 0, period := none, transit_prev := none }

/-- Concrete food POI carrying a stale `day = 3` assignment. -/
def foodX : POI :=
  { id := 3, name := "Rest", lat := 0, lon := 0, ptype := "food",
    time_min := 60, cost := 0, day := 3, period := some "Tarde",
    transit_prev := none }

/-- Concrete visit POI whose duration (10000 min) exceeds every period
budget the UI can configure. -/
def bigPoi : POI :=
  { id := 4, name := "Big", lat := 0, lon := 0, ptype := "visit",
    time_min := 10000, cost := 0, day := 0, period := none,
    transit_prev := none }

/-- Concrete optimizer over the two colocated visit POIs. -/
def oW : TravelOptimizer := TravelOptimizer.make gzero [visitA, visitB] hotelW 4 4

/-- The packed copy of `visitA`: day 1, morning, zero transit. -/
def pA : POI := { visitA with day := 1, period := some "Manhã", transit_prev := some 0 }

/-- The packed copy of `visitB`: day 1, morning, zero transit. -/
def pB : POI := { visitB with day := 1, period := some "Manhã", transit_prev := some 0 }

/-- The food POI after the pipeline's in-place stamping. -/
def foodStamped : POI := { foodX with day := 0, period := some "-" }

/-- Post-call state of the caller's list in the concrete mutation run:
hotel and visit records untouched, the food record stamped in place. -/
def poisAfterW : List POI := [hotelW, visitA, visitB, foodStamped]

/-- Collection returned by the concrete mutation run. -/
def resW : List POI := [hotel_entry oW, pA, pB, foodStamped]

/-- Concrete optimizer over a normal visit POI plus the oversized one. -/
def o9 : TravelOptimizer := TravelOptimizer.make gzero [visitA, bigPoi] hotelW 4 4

/-- The oversized POI stamped unscheduled. -/
def bigStamped : POI := { bigPoi with day := 0, period := some "-" }

/-- Final list of the zero-iteration solve over `o9`: hotel anchor, the one
packed POI, and the oversized POI stamped unscheduled. -/
def final9 : List POI := assemble_final o9 [pA]

/-- Association-list lookup returns the stored value when every binding of
the key carries that same value. -/
theorem dict_get_eq_of_unique (l : DistMatrix) (k : Nat × Nat) (v : ℤ)
    (hmem : (k, v) ∈ l) (huniq : ∀ v', (k, v') ∈ l → v' = v) :
    dict_get l k = some v := by
  induction l with
  | nil => cases hmem
  | cons hd tl ih =>
    obtain ⟨k', v'⟩ := hd
    by_cases hk : k = k'
    · rw [dict_get, if_pos hk]
      exact congrArg some (huniq v' (hk ▸ List.mem_cons_self _ _))
    · rw [dict_get, if_neg hk]
      rcases List.mem_cons.mp hmem with h | h
      · exact absurd (congrArg Prod.fst h) hk
      · exact ih h (fun v'' h'' => huniq v'' (List.mem_cons_of_mem _ h''))

/-- Every successful association-list lookup comes from a binding in the
list. -/
theorem dict_get_mem : ∀ {l : DistMatrix} {k : Nat × Nat} {v : ℤ},
    dict_get l k = some v → (k, v) ∈ l := by
  intro l
  induction l with
  | nil => intro k v h; cases h
  | cons hd tl ih =>
    intro k v h
    obtain ⟨k', v'⟩ := hd
    rw [dict_get] at h
    by_cases hk : k = k'
    · rw [if_pos hk] at h
      obtain rfl : v' = v := Option.some_inj.mp h
      rw [hk]
      exact List.mem_cons_self _ _
    · rw [if_neg hk] at h
      exact List.mem_cons_of_mem _ (ih h)

/-- Every entry of the precomputed travel-time dictionary is the
mode-of-travel formula applied to an ordered pair of distinct-id nodes. -/
theorem precompute_mem_spec (g : POI → POI → ℚ) (pois : List POI) (hotel : POI) :
    ∀ e ∈ precompute_distances g pois hotel,
      ∃ p1, p1 ∈ pois ++ [hotel] ∧ ∃ p2, p2 ∈ pois ++ [hotel] ∧ p1.id ≠ p2.id ∧
        e = ((p1.id, p2.id),
          travel_minutes (g p1 p2)
            (if p1.ptype = "hotel" then DRIVING_SPEED_KMH else WALKING_SPEED_KMH)) := by
  intro e he
  simp only [precompute_distances] at he
  rw [List.mem_flatMap] at he
  obtain ⟨p1, hp1, he⟩ := he
  rw [List.mem_filterMap] at he
  obtain ⟨p2, hp2, hf⟩ := he
  by_cases hid : p1.id = p2.id
  · rw [if_pos hid] at hf; cases hf
  · rw [if_neg hid] at hf
    exact ⟨p1, hp1, p2, hp2, hid, (Option.some.injEq _ _ ▸ hf).symm⟩

/-- The travel-time dictionary contains the formula entry for every ordered
pair of distinct-id nodes. -/
theorem precompute_mem_intro (g : POI → POI → ℚ) (pois : List POI) (hotel : POI)
    (A B : POI) (hA : A ∈ pois ++ [hotel]) (hB : B ∈ pois ++ [hotel])
    (hAB : A.id ≠ B.id) :
    ((A.id, B.id),
      travel_minutes (g A B)
        (if A.ptype = "hotel" then DRIVING_SPEED_KMH else WALKING_SPEED_KMH)) ∈
      precompute_distances g pois hotel := by
  simp only [precompute_distances]
  rw [List.mem_flatMap]
  refine ⟨A, hA, ?_⟩
  rw [List.mem_filterMap]
  exact ⟨B, hB, by rw [if_neg hAB]⟩

/-- When the node ids are distinct, `_get_dist_time` returns exactly the
mode-of-travel formula for the ordered pair. -/
theorem get_dist_time_make (g : POI → POI → ℚ) (pois : List POI) (hotel : POI)
    (A B : POI) (hnd : ((pois ++ [hotel]).map POI.id).Nodup)
    (hA : A ∈ pois ++ [hotel]) (hB : B ∈ pois ++ [hotel]) (hAB : A.id ≠ B.id) :
    get_dist_time (precompute_distances g pois hotel) A.id B.id =
      travel_minutes (g A B)
        (if A.ptype = "hotel" then DRIVING_SPEED_KMH else WALKING_SPEED_KMH) := by
  have huniq : ∀ v',
      ((A.id, B.id), v') ∈ (precompute_distances g pois hotel).reverse →
      v' = travel_minutes (g A B)
        (if A.ptype = "hotel" then DRIVING_SPEED_KMH else WALKING_SPEED_KMH) := by
    intro v' hv'
    rw [List.mem_reverse] at hv'
    obtain ⟨p1, hp1, p2, hp2, hne, heq⟩ := precompute_mem_spec g pois hotel _ hv'
    have h1 : A.id = p1.id := congrArg (fun q => q.1.1) heq
    have h2 : B.id = p2.id := congrArg (fun q => q.1.2) heq
    have hv : v' = travel_minutes (g p1 p2)
        (if p1.ptype = "hotel" then DRIVING_SPEED_KMH else WALKING_SPEED_KMH) :=
      congrArg Prod.snd heq
    have hp1A : p1 = A := List.inj_on_of_nodup_map hnd hp1 hA h1.symm
    have hp2B : p2 = B := List.inj_on_of_nodup_map hnd hp2 hB h2.symm
    rw [hv, hp1A, hp2B]
  rw [get_dist_time, dict_get_eq_of_unique _ _ _
    (List.mem_reverse.mpr (precompute_mem_intro g pois hotel A B hA hB hAB)) huniq]
  rfl

/-- Travel times computed from a nonnegative distance and a positive speed
are nonnegative. -/
theorem travel_minutes_nonneg {d s : ℚ} (hd : 0 ≤ d) (hs : 0 < s) :
    0 ≤ travel_minutes d s := by
  rw [travel_minutes]
  exact Int.floor_nonneg.mpr (by positivity)

/-- With a nonnegative geodesic function every `_get_dist_time` lookup is
nonnegative (entries by the formula, missing pairs by the default `0`). -/
theorem get_dist_time_nonneg (g : POI → POI → ℚ) (pois : List POI) (hotel : POI)
    (hg : ∀ p q, 0 ≤ g p q) (a b : Nat) :
    0 ≤ get_dist_time (precompute_distances g pois hotel) a b := by
  rw [get_dist_time]
  cases hdg : dict_get (precompute_distances g pois hotel).reverse (a, b) with
  | none => simp
  | some v =>
    have hmem := List.mem_reverse.mp (dict_get_mem hdg)
    obtain ⟨p1, _, p2, _, _, heq⟩ := precompute_mem_spec g pois hotel _ hmem
    have hv : v = travel_minutes (g p1 p2)
        (if p1.ptype = "hotel" then DRIVING_SPEED_KMH else WALKING_SPEED_KMH) :=
      congrArg Prod.snd heq
    have : 0 ≤ v := by
      rw [hv]
      refine travel_minutes_nonneg (hg p1 p2) ?_
      split <;> norm_num [DRIVING_SPEED_KMH, WALKING_SPEED_KMH]
    simpa using this

/-- Every entry placed by one period pass is a stamped copy of a pending
record: same id and duration, day and period set to the pass's values, and
a present transit field. -/
theorem pack_placed_spec (m : DistMatrix) (mx : ℤ) (dia : Nat) (per : String) :
    ∀ (pend : List POI) (loc : POI) (tempo : ℤ),
      ∀ e ∈ (pack_pass m mx dia per pend loc tempo).placed,
        entryFrom pend e ∧ e.day = dia ∧ e.period = some per ∧
          e.transit_prev.isSome = true := by
  intro pend
  induction pend with
  | nil =>
    intro loc tempo e he
    simp [pack_pass] at he
  | cons poi rest ih =>
    intro loc tempo e he
    rw [pack_pass] at he
    by_cases hfit : tempo + (get_dist_time m loc.id poi.id + poi.time_min) ≤ mx
    · rw [if_pos hfit] at he
      rcases List.mem_cons.mp he with h | h
      · subst h
        exact ⟨⟨poi, List.mem_cons_self _ _, rfl, rfl⟩, rfl, rfl, rfl⟩
      · obtain ⟨⟨x, hx, hxe⟩, hday, hper, htr⟩ :=
          ih poi (tempo + (get_dist_time m loc.id poi.id + poi.time_min)) e h
        exact ⟨⟨x, List.mem_cons_of_mem _ hx, hxe⟩, hday, hper, htr⟩
    · rw [if_neg hfit] at he
      obtain ⟨⟨x, hx, hxe⟩, hday, hper, htr⟩ := ih loc tempo e he
      exact ⟨⟨x, List.mem_cons_of_mem _ hx, hxe⟩, hday, hper, htr⟩

/-- Records left pending by a period pass were already pending before it. -/
theorem pack_remaining_sub (m : DistMatrix) (mx : ℤ) (dia : Nat) (per : String) :
    ∀ (pend : List POI) (loc : POI) (tempo : ℤ),
      ∀ x ∈ (pack_pass m mx dia per pend loc tempo).remaining, x ∈ pend := by
  intro pend
  induction pend with
  | nil =>
    intro loc tempo x hx
    simp [pack_pass] at hx
  | cons poi rest ih =>
    intro loc tempo x hx
    rw [pack_pass] at hx
    by_cases hfit : tempo + (get_dist_time m loc.id poi.id + poi.time_min) ≤ mx
    · rw [if_pos hfit] at hx
      exact List.mem_cons_of_mem _
        (ih poi (tempo + (get_dist_time m loc.id poi.id + poi.time_min)) x hx)
    · rw [if_neg hfit] at hx
      rcases List.mem_cons.mp hx with h | h
      · exact h ▸ List.mem_cons_self _ _
      · exact List.mem_cons_of_mem _ (ih loc tempo x h)

/-- Guard invariant of the first-fit scan: starting from an accumulated
time within the budget, the accumulated time plus the total
(travel + duration) cost of everything the scan places stays within the
budget. -/
theorem pack_sum (m : DistMatrix) (mx : ℤ) (dia : Nat) (per : String) :
    ∀ (pend : List POI) (loc : POI) (tempo : ℤ), tempo ≤ mx →
      tempo + (((pack_pass m mx dia per pend loc tempo).placed.map
        entryCost).sum) ≤ mx := by
  intro pend
  induction pend with
  | nil =>
    intro loc tempo htempo
    simpa [pack_pass] using htempo
  | cons poi rest ih =>
    intro loc tempo htempo
    rw [pack_pass]
    by_cases hfit : tempo + (get_dist_time m loc.id poi.id + poi.time_min) ≤ mx
    · rw [if_pos hfit]
      have hrec := ih poi (tempo + (get_dist_time m loc.id poi.id + poi.time_min)) hfit
      simp only [List.map_cons, List.sum_cons, entryCost, Option.getD_some]
      omega
    · rw [if_neg hfit]
      exact ih loc tempo htempo

/-- With nonnegative travel times and durations, every entry placed by a
period pass has a duration not exceeding the pass's budget. -/
theorem pack_placed_bound (m : DistMatrix) (mx : ℤ) (dia : Nat) (per : String)
    (hm : ∀ a b, 0 ≤ get_dist_time m a b) :
    ∀ (pend : List POI) (loc : POI) (tempo : ℤ), 0 ≤ tempo →
      (∀ x ∈ pend, 0 ≤ x.time_min) →
      ∀ e ∈ (pack_pass m mx dia per pend loc tempo).placed, e.time_min ≤ mx := by
  intro pend
  induction pend with
  | nil =>
    intro loc tempo _ _ e he
    simp [pack_pass] at he
  | cons poi rest ih =>
    intro loc tempo htempo hpend e he
    rw [pack_pass] at he
    by_cases hfit : tempo + (get_dist_time m loc.id poi.id + poi.time_min) ≤ mx
    · rw [if_pos hfit] at he
      rcases List.mem_cons.mp he with h | h
      · have htr := hm loc.id poi.id
        subst h
        simp only
        omega
      · have h0 : (0 : ℤ) ≤ poi.time_min := hpend poi (List.mem_cons_self _ _)
        have htr := hm loc.id poi.id
        exact ih poi (tempo + (get_dist_time m loc.id poi.id + poi.time_min))
          (by omega) (fun x hx => hpend x (List.mem_cons_of_mem _ hx)) e h
    · rw [if_neg hfit] at he
      exact ih loc tempo htempo (fun x hx => hpend x (List.mem_cons_of_mem _ hx)) e he

/-- Load of an appended schedule splits additively. -/
theorem periodLoad_append (l1 l2 : List POI) (d : Nat) (per : String) :
    periodLoad (l1 ++ l2) d per = periodLoad l1 d per + periodLoad l2 d per := by
  simp [periodLoad, List.filter_append, List.sum_append]

/-- Load of a cell no schedule entry belongs to is zero. -/
theorem periodLoad_eq_zero (l : List POI) (d : Nat) (per : String)
    (h : ∀ e ∈ l, ¬(e.day = d ∧ e.period = some per)) :
    periodLoad l d per = 0 := by
  rw [periodLoad, List.filter_eq_nil.mpr (fun e he => by simpa using h e he)]
  rfl

/-- Load of a cell every schedule entry belongs to is the total cost. -/
theorem periodLoad_eq_sum (l : List POI) (d : Nat) (per : String)
    (h : ∀ e ∈ l, e.day = d ∧ e.period = some per) :
    periodLoad l d per = (l.map entryCost).sum := by
  rw [periodLoad, List.filter_eq_self.mpr (fun e he => by simpa using h e he)]

/-- Combined bound for one day's morning and afternoon placements followed
by the later days' schedule. -/
theorem load_le_of_parts (mp tp rs : List POI) (dia d : Nat) (mM mT : ℤ)
    (hM0 : 0 ≤ mM) (hT0 : 0 ≤ mT)
    (hmp : ∀ e ∈ mp, e.day = dia ∧ e.period = some "Manhã")
    (htp : ∀ e ∈ tp, e.day = dia ∧ e.period = some "Tarde")
    (hrs : ∀ e ∈ rs, dia + 1 ≤ e.day)
    (hsm : (0 : ℤ) + (mp.map entryCost).sum ≤ mM)
    (hst : (0 : ℤ) + (tp.map entryCost).sum ≤ mT)
    (hrm : periodLoad rs d "Manhã" ≤ mM)
    (hrt : periodLoad rs d "Tarde" ≤ mT) :
    periodLoad (mp ++ tp ++ rs) d "Manhã" ≤ mM ∧
    periodLoad (mp ++ tp ++ rs) d "Tarde" ≤ mT := by
  rw [periodLoad_append, periodLoad_append, periodLoad_append, periodLoad_append]
  by_cases hd : d = dia
  · subst hd
    have h2 : periodLoad tp d "Manhã" = 0 :=
      periodLoad_eq_zero _ _ _ (fun e he => by
        have := (htp e he).2
        simp [this])
    have h3 : periodLoad rs d "Manhã" = 0 :=
      periodLoad_eq_zero _ _ _ (fun e he => by
        have := hrs e he
        omega)
    have h4 : periodLoad mp d "Tarde" = 0 :=
      periodLoad_eq_zero _ _ _ (fun e he => by
        have := (hmp e he).2
        simp [this])
    have h6 : periodLoad rs d "Tarde" = 0 :=
      periodLoad_eq_zero _ _ _ (fun e he => by
        have := hrs e he
        omega)
    have h1 : periodLoad mp d "Manhã" = (mp.map entryCost).sum :=
      periodLoad_eq_sum _ _ _ hmp
    have h5 : periodLoad tp d "Tarde" = (tp.map entryCost).sum :=
      periodLoad_eq_sum _ _ _ htp
    rw [h1, h2, h3, h4, h5, h6]
    omega
  · have h1 : periodLoad mp d "Manhã" = 0 :=
      periodLoad_eq_zero _ _ _ (fun e he => by
        have := (hmp e he).1
        omega)
    have h2 : periodLoad tp d "Manhã" = 0 :=
      periodLoad_eq_zero _ _ _ (fun e he => by
        have := (htp e he).1
        omega)
    have h4 : periodLoad mp d "Tarde" = 0 :=
      periodLoad_eq_zero _ _ _ (fun e he => by
        have := (hmp e he).1
        omega)
    have h5 : periodLoad tp d "Tarde" = 0 :=
      periodLoad_eq_zero _ _ _ (fun e he => by
        have := (htp e he).1
        omega)
    rw [h1, h2, h4, h5]
    omega

/-- Every entry the day loop schedules is a stamped copy of a pending
record, its day lies between the starting day and the day cap, its period
is morning or afternoon, and its transit field is present. -/
theorem eval_sched_spec (m : DistMatrix) (mM mT : ℤ) (hotel : POI) :
    ∀ (fuel dia : Nat) (pend : List POI),
      ∀ e ∈ (eval_loop m mM mT hotel fuel dia pend).schedule,
        entryFrom pend e ∧ dia ≤ e.day ∧ e.day < dia + fuel ∧
          (e.period = some "Manhã" ∨ e.period = some "Tarde") ∧
          e.transit_prev.isSome = true := by
  intro fuel
  induction fuel with
  | zero =>
    intro dia pend e he
    simp [eval_loop] at he
  | succ fuel ih =>
    intro dia pend e he
    rw [eval_loop] at he
    by_cases hemp : pend.isEmpty = true
    · rw [if_pos hemp] at he
      simp at he
    · rw [if_neg hemp] at he
      simp only at he
      split at he
      · simp at he
      · simp only at he
        rcases List.mem_append.mp he with hmt | hr
        · rcases List.mem_append.mp hmt with hm | ht
          · obtain ⟨hef, hday, hper, htr⟩ :=
              pack_placed_spec m mM dia "Manhã" pend hotel 0 e hm
            exact ⟨hef, le_of_eq hday.symm, by omega, Or.inl hper, htr⟩
          · obtain ⟨⟨x, hx, hxe⟩, hday, hper, htr⟩ :=
              pack_placed_spec m mT dia "Tarde" _ _ 0 e ht
            exact ⟨⟨x, pack_remaining_sub m mM dia "Manhã" pend hotel 0 x hx, hxe⟩,
              le_of_eq hday.symm, by omega, Or.inr hper, htr⟩
        · obtain ⟨⟨x, hx, hxe⟩, hday1, hday2, hper, htr⟩ := ih (dia + 1) _ e hr
          refine ⟨⟨x, ?_, hxe⟩, by omega, by omega, hper, htr⟩
          exact pack_remaining_sub m mM dia "Manhã" pend hotel 0 x
            (pack_remaining_sub m mT dia "Tarde" _ _ 0 x hx)

/-- The day loop never accumulates more combined (travel + duration)
minutes in a (day, period) cell than the corresponding period budget. -/
theorem eval_load (m : DistMatrix) (mM mT : ℤ) (hotel : POI)
    (hM0 : 0 ≤ mM) (hT0 : 0 ≤ mT) :
    ∀ (fuel dia : Nat) (pend : List POI) (d : Nat),
      periodLoad (eval_loop m mM mT hotel fuel dia pend).schedule d "Manhã" ≤ mM ∧
      periodLoad (eval_loop m mM mT hotel fuel dia pend).schedule d "Tarde" ≤ mT := by
  intro fuel
  induction fuel with
  | zero =>
    intro dia pend d
    constructor <;> simpa [eval_loop, periodLoad] using (by assumption)
  | succ fuel ih =>
    intro dia pend d
    rw [eval_loop]
    by_cases hemp : pend.isEmpty = true
    · rw [if_pos hemp]
      constructor <;> simpa [periodLoad] using (by assumption)
    · rw [if_neg hemp]
      simp only
      split
      · constructor <;> simpa [periodLoad] using (by assumption)
      · refine load_le_of_parts _ _ _ dia d mM mT hM0 hT0
          (fun e he => ⟨(pack_placed_spec m mM dia "Manhã" pend hotel 0 e he).2.1,
            (pack_placed_spec m mM dia "Manhã" pend hotel 0 e he).2.2.1⟩)
          (fun e he => ⟨(pack_placed_spec m mT dia "Tarde" _ _ 0 e he).2.1,
            (pack_placed_spec m mT dia "Tarde" _ _ 0 e he).2.2.1⟩)
          (fun e he => (eval_sched_spec m mM mT hotel fuel (dia + 1) _ e he).2.1)
          (pack_sum m mM dia "Manhã" pend hotel 0 hM0)
          (pack_sum m mT dia "Tarde" _ _ 0 hT0)
          (ih (dia + 1) _ d).1 (ih (dia + 1) _ d).2

/-- The swapped candidate list only contains elements of the current one. -/
theorem sample_swap_sub (cur : List POI) (i j : Nat) :
    ∀ x ∈ sample_swap cur i j, x ∈ cur := by
  intro x hx
  rw [sample_swap] at hx
  cases hgi : cur.get? i with
  | none =>
    cases hgj : cur.get? j <;> simp only [hgi, hgj] at hx <;> exact hx
  | some a =>
    cases hgj : cur.get? j with
    | none => simp only [hgi, hgj] at hx; exact hx
    | some b =>
      simp only [hgi, hgj] at hx
      rcases List.mem_or_eq_of_mem_set hx with h1 | rfl
      · rcases List.mem_or_eq_of_mem_set h1 with h2 | rfl
        · exact h2
        · exact List.get?_mem hgj
      · exact List.get?_mem hgi

/-- Invariant carried by the best-schedule slot of the annealing loop: any
property that holds of every packer output over candidate lists drawn from
`S` holds of the final best schedule. -/
theorem sa_loop_best_pred (o : TravelOptimizer) (swapAt : Nat → Nat × Nat)
    (accept : Nat → Bool) (S : List POI) (P : POI → Prop)
    (hP : ∀ sol : List POI, (∀ x ∈ sol, x ∈ S) →
      ∀ e ∈ (o.evaluate_schedule sol).schedule, P e) :
    ∀ (k i : Nat) (cur : List POI) (curE : ℤ) (bs : List POI) (be : ℤ)
      (res : List POI × ℤ),
      (∀ x ∈ cur, x ∈ S) → (∀ e ∈ bs, P e) →
      sa_loop o swapAt accept k i cur curE bs be = .ok res →
      ∀ e ∈ res.1, P e := by
  intro k
  induction k with
  | zero =>
    intro i cur curE bs be res hcur hbs hs
    rw [sa_loop] at hs
    cases hs
    exact hbs
  | succ k ih =>
    intro i cur curE bs be res hcur hbs hs
    rw [sa_loop] at hs
    by_cases hlen : cur.length < 2
    · rw [if_pos hlen] at hs
      cases hs
    · rw [if_neg hlen] at hs
      simp only at hs
      have hnewsub : ∀ x ∈ sample_swap cur (swapAt i).1 (swapAt i).2, x ∈ S :=
        fun x hx => hcur x (sample_swap_sub _ _ _ x hx)
      split at hs
      · split at hs
        · exact ih (i + 1) _ _ _ _ res hnewsub (fun e he => hP _ hnewsub e he) hs
        · exact ih (i + 1) _ _ _ _ res hnewsub hbs hs
      · exact ih (i + 1) _ _ _ _ res hcur hbs hs

/-- Best-so-far tracking of the annealing loop: provided the tracked best
energy is at most the current energy (which holds at the top call, where
they coincide), the loop returns a best energy that never exceeds the
incoming one, that is a lower bound of every (schedule, energy) pair
evaluated during the run, and the returned pair is the incoming one or one
of the evaluated pairs. -/
theorem sa_loop_best_min (o : TravelOptimizer) (swapAt : Nat → Nat × Nat)
    (accept : Nat → Bool) :
    ∀ (k i : Nat) (cur : List POI) (curE : ℤ) (bs : List POI) (be : ℤ)
      (res : List POI × ℤ),
      be ≤ curE →
      sa_loop o swapAt accept k i cur curE bs be = .ok res →
      res.2 ≤ be ∧
        (∀ q ∈ sa_observed o swapAt accept k i cur curE, res.2 ≤ q.2) ∧
        (res = (bs, be) ∨ res ∈ sa_observed o swapAt accept k i cur curE) := by
  intro k
  induction k with
  | zero =>
    intro i cur curE bs be res hbe hs
    rw [sa_loop] at hs
    cases hs
    refine ⟨le_refl _, ?_, Or.inl rfl⟩
    intro q hq
    simp [sa_observed] at hq
  | succ k ih =>
    intro i cur curE bs be res hbe hs
    rw [sa_loop] at hs
    rw [sa_observed]
    by_cases hlen : cur.length < 2
    · rw [if_pos hlen] at hs
      cases hs
    · rw [if_neg hlen] at hs
      rw [if_neg hlen]
      simp only at hs ⊢
      by_cases hacc :
          (energyOf (o.evaluate_schedule
            (sample_swap cur (swapAt i).1 (swapAt i).2)) - curE < 0) ∨
          accept i = true
      · rw [if_pos hacc] at hs ⊢
        by_cases hlt : energyOf (o.evaluate_schedule
            (sample_swap cur (swapAt i).1 (swapAt i).2)) < be
        · rw [if_pos hlt] at hs
          obtain ⟨h1, h2, h3⟩ := ih (i + 1) _ _ _ _ res (le_refl _) hs
          refine ⟨h1.trans hlt.le, ?_, ?_⟩
          · intro q hq
            rcases List.mem_cons.mp hq with rfl | hq'
            · exact h1
            · exact h2 q hq'
          · rcases h3 with h | h
            · exact Or.inr (h ▸ List.mem_cons_self _ _)
            · exact Or.inr (List.mem_cons_of_mem _ h)
        · rw [if_neg hlt] at hs
          obtain ⟨h1, h2, h3⟩ := ih (i + 1) _ _ _ _ res (not_lt.mp hlt) hs
          refine ⟨h1, ?_, ?_⟩
          · intro q hq
            rcases List.mem_cons.mp hq with rfl | hq'
            · exact h1.trans (not_lt.mp hlt)
            · exact h2 q hq'
          · rcases h3 with h | h
            · exact Or.inl h
            · exact Or.inr (List.mem_cons_of_mem _ h)
      · rw [if_neg hacc] at hs ⊢
        have hge : curE ≤ energyOf (o.evaluate_schedule
            (sample_swap cur (swapAt i).1 (swapAt i).2)) := by
          rcases not_or.mp hacc with ⟨h, _⟩
          omega
        obtain ⟨h1, h2, h3⟩ := ih (i + 1) _ _ _ _ res hbe hs
        refine ⟨h1, ?_, ?_⟩
        · intro q hq
          rcases List.mem_cons.mp hq with rfl | hq'
          · exact (h1.trans hbe).trans hge
          · exact h2 q hq'
        · rcases h3 with h | h
          · exact Or.inl h
          · exact Or.inr (List.mem_cons_of_mem _ h)

/-- Decomposition of a successful `solve_simulated_annealing` run: the
returned list is the assembly of some best schedule, every entry of which
satisfies any property preserved by the packer over candidate lists drawn
from the optimizer's POIs. -/
theorem solve_final_structure (o : TravelOptimizer)
    (shuffle : List POI → List POI) (swapAt : Nat → Nat × Nat)
    (accept : Nat → Bool) (its : Nat) (final : List POI) (P : POI → Prop)
    (hP : ∀ sol : List POI, (∀ x ∈ sol, x ∈ o.pois) →
      ∀ e ∈ (o.evaluate_schedule sol).schedule, P e)
    (hsh : ∀ x ∈ shuffle o.pois, x ∈ o.pois)
    (hs : o.solve_simulated_annealing shuffle swapAt accept its = .ok final) :
    ∃ bs, (∀ e ∈ bs, P e) ∧ final = assemble_final o bs := by
  rw [TravelOptimizer.solve_simulated_annealing] at hs
  cases hres : sa_loop o swapAt accept its 0 (shuffle o.pois)
      (energyOf (o.evaluate_schedule (shuffle o.pois)))
      (o.evaluate_schedule (shuffle o.pois)).schedule
      (energyOf (o.evaluate_schedule (shuffle o.pois))) with
  | error e =>
    rw [hres] at hs
    cases hs
  | ok br =>
    rw [hres] at hs
    have hs' : Except.ok (assemble_final o br.1) = Except.ok final := hs
    injection hs' with h1
    refine ⟨br.1, ?_, h1.symm⟩
    exact sa_loop_best_pred o swapAt accept o.pois P hP its 0 _ _ _ _ br hsh
      (fun e he => hP _ hsh e he) hres

/-- An input POI whose id is not among the best schedule's ids appears in
the assembled list as a copy stamped `day = 0`, `period = '-'`. -/
theorem assemble_mem_unvisited (o : TravelOptimizer) (bs : List POI) (p : POI)
    (hp : p ∈ o.pois) (hnv : p.id ∉ bs.map POI.id) :
    { p with day := 0, period := some "-" } ∈ assemble_final o bs := by
  rw [assemble_final]
  refine List.mem_cons_of_mem _ (List.mem_append.mpr (Or.inr ?_))
  rw [List.mem_map]
  refine ⟨p, ?_, rfl⟩
  rw [List.mem_filter]
  exact ⟨hp, by simpa using hnv⟩

/-- Every input POI's id appears in the assembled final list. -/
theorem assemble_contains_pois (o : TravelOptimizer) (bs : List POI) (p : POI)
    (hp : p ∈ o.pois) : p.id ∈ (assemble_final o bs).map POI.id := by
  by_cases hv : p.id ∈ bs.map POI.id
  · rw [List.mem_map] at hv ⊢
    obtain ⟨e, he, hei⟩ := hv
    refine ⟨e, ?_, hei⟩
    rw [assemble_final]
    exact List.mem_cons_of_mem _ (List.mem_append.mpr (Or.inl he))
  · rw [List.mem_map]
    exact ⟨{ p with day := 0, period := some "-" },
      assemble_mem_unvisited o bs p hp hv, rfl⟩

/-- Every id in the assembled final list is the hotel's id, an id of the
best schedule, or the id of some input POI. -/
theorem assemble_ids_sub (o : TravelOptimizer) (bs : List POI) :
    ∀ i ∈ (assemble_final o bs).map POI.id,
      i = o.hotel.id ∨ i ∈ bs.map POI.id ∨ ∃ p ∈ o.pois, p.id = i := by
  intro i hi
  rw [List.mem_map] at hi
  obtain ⟨e, he, hei⟩ := hi
  rw [assemble_final] at he
  rcases List.mem_cons.mp he with rfl | he'
  · exact Or.inl hei.symm
  · rcases List.mem_append.mp he' with hb | hstamp
    · exact Or.inr (Or.inl (List.mem_map.mpr ⟨e, hb, hei⟩))
    · rw [List.mem_map] at hstamp
      obtain ⟨p, hpf, rfl⟩ := hstamp
      exact Or.inr (Or.inr ⟨p, (List.mem_filter.mp hpf).1, hei⟩)

/-- With nonnegative travel times and durations, every scheduled entry's
duration fits one of the two period budgets (the one it was packed into). -/
theorem eval_entry_bound (m : DistMatrix) (mM mT : ℤ) (hotel : POI)
    (hm : ∀ a b, 0 ≤ get_dist_time m a b) :
    ∀ (fuel dia : Nat) (pend : List POI), (∀ x ∈ pend, 0 ≤ x.time_min) →
      ∀ e ∈ (eval_loop m mM mT hotel fuel dia pend).schedule,
        e.time_min ≤ mM ∨ e.time_min ≤ mT := by
  intro fuel
  induction fuel with
  | zero =>
    intro dia pend _ e he
    simp [eval_loop] at he
  | succ fuel ih =>
    intro dia pend hpend e he
    rw [eval_loop] at he
    by_cases hemp : pend.isEmpty = true
    · rw [if_pos hemp] at he
      simp at he
    · rw [if_neg hemp] at he
      simp only at he
      split at he
      · simp at he
      · simp only at he
        have hpend1 : ∀ x ∈ (pack_pass m mM dia "Manhã" pend hotel 0).remaining,
            0 ≤ x.time_min :=
          fun x hx => hpend x (pack_remaining_sub m mM dia "Manhã" pend hotel 0 x hx)
        rcases List.mem_append.mp he with hmt | hr
        · rcases List.mem_append.mp hmt with hm' | ht
          · exact Or.inl (pack_placed_bound m mM dia "Manhã" hm pend hotel 0
              (le_refl 0) hpend e hm')
          · exact Or.inr (pack_placed_bound m mT dia "Tarde" hm _ _ 0
              (le_refl 0) hpend1 e ht)
        · exact ih (dia + 1) _ (fun x hx => hpend1 x
            (pack_remaining_sub m mT dia "Tarde" _ _ 0 x hx)) e hr

/-- Inversion of a successful `run_optimization_logic` call that reached
the optimizer: the returned collection, message and final list state are
determined by the solver's output. -/
theorem run_ok_inversion (g : POI → POI → ℚ) (shuffle : List POI → List POI)
    (swapAt : Nat → Nat × Nat) (accept : Nat → Bool) (pois : List POI)
    (hM hT : Nat) (h : POI) (res : Option (List POI)) (msg : String)
    (pois' : List POI)
    (hfind : pois.find? (fun p => p.ptype == "hotel") = some h)
    (hvne : (pois.filter (fun p => p.ptype == "visit")).isEmpty = false)
    (hrun : run_optimization_logic g shuffle swapAt accept pois hM hT =
      .ok (res, msg, pois')) :
    ∃ final, (TravelOptimizer.make g (pois.filter (fun p => p.ptype == "visit"))
        h hM hT).solve_simulated_annealing shuffle swapAt accept 3000 =
        .ok final ∧
      msg = MSG_DONE ∧
      pois' = pois.map (fun p => if p.id ∈ final.map POI.id then p
        else { p with day := 0, period := some "-" }) ∧
      res = some (final ++
        pois'.filter (fun p => decide (p.id ∉ final.map POI.id))) := by
  simp only [run_optimization_logic] at hrun
  rw [hfind] at hrun
  simp only [hvne, Bool.false_eq_true, if_false] at hrun
  cases hsol : (TravelOptimizer.make g (pois.filter (fun p => p.ptype == "visit"))
      h hM hT).solve_simulated_annealing shuffle swapAt accept 3000 with
  | error e =>
    rw [hsol] at hrun
    simp only [merge_others] at hrun
    cases hrun
  | ok final =>
    rw [hsol] at hrun
    simp only [merge_others] at hrun
    have hrun' :
        Except.ok (α := Option (List POI) × String × List POI) (ε := String)
          (some (final ++
            (pois.map (fun p => if p.id ∈ final.map POI.id then p
              else { p with day := 0, period := some "-" })).filter
                (fun p => decide (p.id ∉ final.map POI.id))),
            MSG_DONE,
            pois.map (fun p => if p.id ∈ final.map POI.id then p
              else { p with day := 0, period := some "-" })) =
          Except.ok (res, msg, pois') := hrun
    injection hrun' with h1
    have hres : res = some (final ++
        (pois.map (fun p => if p.id ∈ final.map POI.id then p
          else { p with day := 0, period := some "-" })).filter
            (fun p => decide (p.id ∉ final.map POI.id))) :=
      (congrArg (fun t => t.1) h1).symm
    have hmsg : msg = MSG_DONE := (congrArg (fun t => t.2.1) h1).symm
    have hpois : pois' = pois.map (fun p => if p.id ∈ final.map POI.id then p
        else { p with day := 0, period := some "-" }) :=
      (congrArg (fun t => t.2.2) h1).symm
    refine ⟨final, rfl, hmsg, hpois, ?_⟩
    rw [hpois]
    exact hres

/-- One iteration of the annealing loop on the colocated two-POI instance
leaves the state unchanged: the swapped order has equal energy, the move is
uphill-or-equal and the reject oracle refuses it. -/
theorem sa_step_c2 (k i : Nat) (bs : List POI) (be : ℤ) :
    sa_loop oW oracle_swap01 oracle_reject (k + 1) i [visitA, visitB]
      (-20000) bs be =
    sa_loop oW oracle_swap01 oracle_reject k (i + 1) [visitA, visitB]
      (-20000) bs be := by
  rw [sa_loop]
  have h0 : sample_swap [visitA, visitB] 0 1 = [visitB, visitA] := rfl
  have h1 : energyOf (oW.evaluate_schedule [visitB, visitA]) = -20000 := rfl
  simp only [oracle_swap01, oracle_reject, List.length_cons, List.length_nil,
    h0, h1]
  norm_num

/-- The annealing loop on the colocated two-POI instance returns its
incoming best pair unchanged, for any iteration count. -/
theorem sa_const_c2 : ∀ (k i : Nat) (bs : List POI) (be : ℤ),
    sa_loop oW oracle_swap01 oracle_reject k i [visitA, visitB] (-20000) bs be =
      .ok (bs, be) := by
  intro k
  induction k with
  | zero => intro i bs be; rfl
  | succ k ih => intro i bs be; rw [sa_step_c2]; exact ih (i + 1) bs be

/-- Concrete full solve over the colocated two-POI instance: both POIs are
packed into day 1's morning and nothing is left unvisited. -/
theorem solve_c2 : oW.solve_simulated_annealing id oracle_swap01 oracle_reject
    3000 = .ok (assemble_final oW [pA, pB]) := by
  show (sa_loop oW oracle_swap01 oracle_reject 3000 0 [visitA, visitB] (-20000)
      [pA, pB] (-20000)).map (fun br => assemble_final oW br.1) = _
  rw [sa_const_c2]
  rfl

/-- Concrete full `run_optimization_logic` call on hotel, two visit POIs
and a food POI carrying a stale `day = 3`: the call succeeds and the
caller's food record is mutated in place to `day = 0`, `period = '-'`. -/
theorem run_c2 : run_optimization_logic gzero id oracle_swap01 oracle_reject
    [hotelW, visitA, visitB, foodX] 4 4 = .ok (some resW, MSG_DONE, poisAfterW) := by
  have h0 : run_optimization_logic gzero id oracle_swap01 oracle_reject
      [hotelW, visitA, visitB, foodX] 4 4 =
      merge_others [hotelW, visitA, visitB, foodX]
        (oW.solve_simulated_annealing id oracle_swap01 oracle_reject 3000) := rfl
  rw [h0, solve_c2]
  rfl

/-- C1: for every input permutation of visit-POIs and every morning and
afternoon budget, the packer never accumulates more than
`budget_hours * 60 + 30` minutes of combined travel and visit duration in
any single (day, period) cell: each POI is committed to a period only if
the accumulated time plus travel plus duration stays within that bound. -/
theorem packer_period_budget_bound (g : POI → POI → ℚ) (pois : List POI)
    (hotel : POI) (hM hT : Nat) (ordered : List POI) (d : Nat) :
    periodLoad ((TravelOptimizer.make g pois hotel hM hT).evaluate_schedule
      ordered).schedule d "Manhã" ≤ (hM : ℤ) * 60 + 30 ∧
    periodLoad ((TravelOptimizer.make g pois hotel hM hT).evaluate_schedule
      ordered).schedule d "Tarde" ≤ (hT : ℤ) * 60 + 30 := by
  have h := eval_load (precompute_distances g pois hotel)
    ((hM : ℤ) * 60 + 30) ((hT : ℤ) * 60 + 30) hotel
    (by positivity) (by positivity) 10 1 ordered d
  exact h

/-- C2 counterexample: the pipeline does mutate the caller's input records
in place.  On hotel, two visit POIs and a food POI carrying `day = 3`, the
call succeeds and afterwards the caller's food record reads `day = 0`,
`period = '-'`: the final list state differs from the input. -/
theorem run_mutates_input_counterexample :
    run_optimization_logic gzero id oracle_swap01 oracle_reject
      [hotelW, visitA, visitB, foodX] 4 4 =
        .ok (some resW, MSG_DONE, poisAfterW) ∧
    poisAfterW ≠ [hotelW, visitA, visitB, foodX] := by
  refine ⟨run_c2, ?_⟩
  decide

/-- C2 amended: the packer itself works on copies, but
`run_optimization_logic` mutates in place exactly the input records whose
id is outside the optimized output (the non-hotel, non-visit categories),
stamping them `day = 0`, `period = '-'`; hotel and visit records are
returned to the caller unchanged. -/
theorem run_mutation_characterization (g : POI → POI → ℚ)
    (shuffle : List POI → List POI) (swapAt : Nat → Nat × Nat)
    (accept : Nat → Bool) (pois : List POI) (hM hT : Nat) (h : POI)
    (res : Option (List POI)) (msg : String) (pois' : List POI)
    (hfind : pois.find? (fun p => p.ptype == "hotel") = some h)
    (hvne : (pois.filter (fun p => p.ptype == "visit")).isEmpty = false)
    (hsh : ∀ x ∈ shuffle (pois.filter (fun p => p.ptype == "visit")),
      x ∈ pois.filter (fun p => p.ptype == "visit"))
    (hnd : (pois.map POI.id).Nodup)
    (hrun : run_optimization_logic g shuffle swapAt accept pois hM hT =
      .ok (res, msg, pois')) :
    pois' = pois.map (fun p =>
      if p.id = h.id ∨ p.ptype = "visit" then p
      else { p with day := 0, period := some "-" }) := by
  obtain ⟨final, hsol, _, hpois, _⟩ :=
    run_ok_inversion g shuffle swapAt accept pois hM hT h res msg pois'
      hfind hvne hrun
  obtain ⟨bs, hbsP, hfin⟩ := solve_final_structure
    (TravelOptimizer.make g (pois.filter (fun p => p.ptype == "visit")) h hM hT)
    shuffle swapAt accept 3000 final
    (entryFrom (pois.filter (fun p => p.ptype == "visit")))
    (fun sol hsub e he =>
      have hef := (eval_sched_spec _ _ _ _ 10 1 sol e he).1
      hef.elim (fun x hx => ⟨x, hsub x hx.1, hx.2⟩)) hsh hsol
  have hinj := List.inj_on_of_nodup_map hnd
  have hchar : ∀ p ∈ pois,
      (p.id ∈ final.map POI.id ↔ (p.id = h.id ∨ p.ptype = "visit")) := by
    intro p hp
    constructor
    · intro hin
      rw [hfin] at hin
      rcases assemble_ids_sub _ bs p.id hin with h1 | h1 | h1
      · exact Or.inl h1
      · rw [List.mem_map] at h1
        obtain ⟨e, he, hei⟩ := h1
        obtain ⟨x, hx, hxi, _⟩ := hbsP e he
        have hxp : x = p := hinj (List.mem_filter.mp hx).1 hp (by rw [hxi, hei])
        right
        have hpred := (List.mem_filter.mp hx).2
        rw [hxp] at hpred
        simpa using hpred
      · obtain ⟨q, hq, hqi⟩ := h1
        have hqp : q = p := hinj (List.mem_filter.mp hq).1 hp hqi
        right
        have hpred := (List.mem_filter.mp hq).2
        rw [hqp] at hpred
        simpa using hpred
    · intro hor
      rw [hfin]
      rcases hor with h1 | h1
      · rw [List.mem_map]
        refine ⟨hotel_entry (TravelOptimizer.make g
          (pois.filter (fun p => p.ptype == "visit")) h hM hT), ?_, h1.symm⟩
        rw [assemble_final]
        exact List.mem_cons_self _ _
      · apply assemble_contains_pois
        show p ∈ pois.filter (fun p => p.ptype == "visit")
        rw [List.mem_filter]
        exact ⟨hp, by simp [h1]⟩
  rw [hpois]
  apply List.map_congr_left
  intro p hp
  by_cases hcond : p.id = h.id ∨ p.ptype = "visit"
  · rw [if_pos ((hchar p hp).mpr hcond), if_pos hcond]
  · rw [if_neg (fun hin => hcond ((hchar p hp).mp hin)), if_neg hcond]

/-- C2 amended, witness: on the concrete mutation run the final list state
is exactly the input with the food record stamped and the hotel and visit
records unchanged. -/
theorem run_mutation_characterization_witness :
    ([hotelW, visitA, visitB, foodX].map POI.id).Nodup ∧
    poisAfterW = [hotelW, visitA, visitB, foodX].map (fun p =>
      if p.id = hotelW.id ∨ p.ptype = "visit" then p
      else { p with day := 0, period := some "-" }) :=
  ⟨by decide,
    run_mutation_characterization gzero id oracle_swap01 oracle_reject
      [hotelW, visitA, visitB, foodX] 4 4 hotelW (some resW) MSG_DONE poisAfterW
      rfl rfl (fun x hx => hx) (by decide) run_c2⟩

/-- C3: with a hotel and exactly one visit-POI the optimizer does not
return a (result, message) pair: the annealing step calls
`random.sample(range(1), 2)`, whose `ValueError` propagates to the caller
uncaught. -/
theorem single_visit_poi_raises :
    run_optimization_logic gzero id oracle_swap01 oracle_reject
      [hotelW, visitA] 4 4 = .error ERR_SAMPLE := rfl

/-- C4 counterexample: the packer stamps `transit_prev` on the very first
stop of a period (here the single stop of day 1's morning carries
`transit_prev = some 0`), so the field is not omitted for first stops. -/
theorem first_stop_transit_present_counterexample :
    (((TravelOptimizer.make gzero [visitA] hotelW 4 4).evaluate_schedule
      [visitA]).schedule.map POI.transit_prev) = [some 0] := rfl

/-- C4 amended: every stop of every period in the packer's schedule,
including the first stop of each period, carries the
transit-time-from-previous-stop field. -/
theorem transit_field_present_on_all_stops (g : POI → POI → ℚ)
    (pois : List POI) (hotel : POI) (hM hT : Nat) (ordered : List POI)
    (e : POI)
    (he : e ∈ ((TravelOptimizer.make g pois hotel hM hT).evaluate_schedule
      ordered).schedule) :
    e.transit_prev.isSome = true :=
  (eval_sched_spec _ _ _ _ 10 1 ordered e he).2.2.2.2

/-- C4 amended, witness: the packed copy of the single POI is the first
stop of its period and its transit field is present. -/
theorem transit_field_present_on_all_stops_witness :
    pA ∈ ((TravelOptimizer.make gzero [visitA] hotelW 4 4).evaluate_schedule
      [visitA]).schedule ∧
    pA.transit_prev.isSome = true :=
  ⟨List.mem_cons_self _ _,
    transit_field_present_on_all_stops gzero [visitA] hotelW 4 4 [visitA] pA
      (List.mem_cons_self _ _)⟩

/-- C5 counterexample: with a hotel, zero visit-POIs and one food-POI
already carrying `day = 3`, the pipeline returns the input collection with
the food-POI untouched (still `day = 3`), not stamped `day = 0` as the
claim states. -/
theorem no_visit_food_not_stamped_counterexample :
    run_optimization_logic gzero id oracle_swap01 oracle_reject
      [hotelW, foodX] 4 4 = .ok (some [hotelW, foodX], MSG_NO_VISITS,
        [hotelW, foodX]) ∧
    foodX.day ≠ 0 :=
  ⟨rfl, by decide⟩

/-- C5 amended: when a hotel is present and there are no visit-POIs, the
pipeline returns the input collection entirely unchanged (no stamping of
any record) together with the advisory add-visit-POIs message. -/
theorem no_visit_pois_returns_input_untouched (g : POI → POI → ℚ)
    (shuffle : List POI → List POI) (swapAt : Nat → Nat × Nat)
    (accept : Nat → Bool) (pois : List POI) (hM hT : Nat) (h : POI)
    (hfind : pois.find? (fun p => p.ptype == "hotel") = some h)
    (hvis : pois.filter (fun p => p.ptype == "visit") = []) :
    run_optimization_logic g shuffle swapAt accept pois hM hT =
      .ok (some pois, MSG_NO_VISITS, pois) := by
  simp only [run_optimization_logic]
  rw [hfind, hvis]
  rfl

/-- C5 amended, witness: the concrete no-visit run returns the input
unchanged with the advisory message. -/
theorem no_visit_pois_returns_input_untouched_witness :
    ([hotelW, foodX].filter (fun p => p.ptype == "visit") = []) ∧
    run_optimization_logic gzero id oracle_swap01 oracle_reject
      [hotelW, foodX] 4 4 = .ok (some [hotelW, foodX], MSG_NO_VISITS,
        [hotelW, foodX]) :=
  ⟨rfl, no_visit_pois_returns_input_untouched gzero id oracle_swap01
    oracle_reject [hotelW, foodX] 4 4 hotelW rfl rfl⟩

/-- C6: for every ordered pair of distinct nodes among the visit-POIs and
the hotel, the precomputed travel time is
`floor(distance_km / speed * 60)` minutes with speed 35 km/h when the
origin is the hotel and 5 km/h otherwise. -/
theorem travel_time_formula (g : POI → POI → ℚ) (pois : List POI)
    (hotel : POI) (hM hT : Nat) (A B : POI)
    (hnd : ((pois ++ [hotel]).map POI.id).Nodup)
    (hA : A ∈ pois ++ [hotel]) (hB : B ∈ pois ++ [hotel]) (hAB : A.id ≠ B.id)
    (hh : hotel.ptype = "hotel") (hv : ∀ p ∈ pois, p.ptype = "visit") :
    get_dist_time (TravelOptimizer.make g pois hotel hM hT).dist_matrix
      A.id B.id = ⌊g A B / (if A = hotel then (35 : ℚ) else 5) * 60⌋ := by
  have hbase := get_dist_time_make g pois hotel A B hnd hA hB hAB
  show get_dist_time (precompute_distances g pois hotel) A.id B.id = _
  rw [hbase, travel_minutes]
  by_cases hAh : A = hotel
  · rw [if_pos (hAh ▸ hh), if_pos hAh]
    rfl
  · have hApois : A ∈ pois := by
      rcases List.mem_append.mp hA with h1 | h1
      · exact h1
      · exact absurd (List.mem_singleton.mp h1) hAh
    have hAv : A.ptype = "visit" := hv A hApois
    rw [if_neg (by rw [hAv]; decide), if_neg hAh]
    rfl

/-- C6 witness: with a 7 km geodesic distance, the hotel-origin entry is
`floor(7 / 35 * 60) = 12` minutes. -/
theorem travel_time_formula_witness :
    hotelW.ptype = "hotel" ∧
    get_dist_time (TravelOptimizer.make gseven [visitA] hotelW 4 4).dist_matrix
      hotelW.id visitA.id = 12 :=
  ⟨rfl,
    (travel_time_formula gseven [visitA] hotelW 4 4 hotelW visitA (by decide)
      (by decide) (by decide) (by decide) rfl (by decide)).trans (by decide)⟩

/-- C7 counterexample: the two directions of a hotel pair do not always
differ.  For a visit-POI colocated with the hotel the geodesic distance is
0 km, and both `floor(0/35*60)` and `floor(0/5*60)` are 0 minutes, so the
entries (hotel → X) and (X → hotel) are equal. -/
theorem hotel_asymmetry_counterexample :
    visitA.ptype ≠ "hotel" ∧
    get_dist_time (TravelOptimizer.make gzero [visitA] hotelW 4 4).dist_matrix
      hotelW.id visitA.id =
    get_dist_time (TravelOptimizer.make gzero [visitA] hotelW 4 4).dist_matrix
      visitA.id hotelW.id :=
  ⟨by decide, rfl⟩

/-- C7 amended: the entry (hotel → X) is computed at driving speed and
(X → hotel) at walking speed over the same symmetric distance, so
(hotel → X) is at most (X → hotel); the two need not differ (they coincide
for example when both round down to the same minute count). -/
theorem hotel_travel_time_le (g : POI → POI → ℚ) (pois : List POI)
    (hotel : POI) (hM hT : Nat) (X : POI)
    (hnd : ((pois ++ [hotel]).map POI.id).Nodup) (hX : X ∈ pois)
    (hh : hotel.ptype = "hotel") (hv : ∀ p ∈ pois, p.ptype = "visit")
    (hsym : g hotel X = g X hotel) (hpos : 0 ≤ g hotel X) :
    get_dist_time (TravelOptimizer.make g pois hotel hM hT).dist_matrix
      hotel.id X.id ≤
    get_dist_time (TravelOptimizer.make g pois hotel hM hT).dist_matrix
      X.id hotel.id := by
  have hne : X.id ≠ hotel.id := by
    intro heq
    rw [List.map_append] at hnd
    have hdisj := (List.nodup_append.mp hnd).2.2
    exact hdisj (List.mem_map.mpr ⟨X, hX, rfl⟩) (by simp [heq])
  have h1 := get_dist_time_make g pois hotel hotel X hnd
    (List.mem_append.mpr (Or.inr (List.mem_singleton_self _)))
    (List.mem_append.mpr (Or.inl hX)) (Ne.symm hne)
  have h2 := get_dist_time_make g pois hotel X hotel hnd
    (List.mem_append.mpr (Or.inl hX))
    (List.mem_append.mpr (Or.inr (List.mem_singleton_self _))) hne
  show get_dist_time (precompute_distances g pois hotel) hotel.id X.id ≤
    get_dist_time (precompute_distances g pois hotel) X.id hotel.id
  rw [h1, h2, if_pos hh, if_neg (by rw [hv X hX]; decide)]
  rw [travel_minutes, travel_minutes, ← hsym]
  apply Int.floor_le_floor
  apply mul_le_mul_of_nonneg_right _ (by norm_num : (0 : ℚ) ≤ 60)
  apply div_le_div_of_nonneg_left hpos
  · rw [WALKING_SPEED_KMH]; norm_num
  · rw [DRIVING_SPEED_KMH, WALKING_SPEED_KMH]; norm_num

/-- C7 amended, witness: with a symmetric 7 km distance the hotel-origin
time (12 min) is at most the walking-return time (84 min). -/
theorem hotel_travel_time_le_witness :
    (0 : ℚ) ≤ gseven hotelW visitA ∧
    get_dist_time (TravelOptimizer.make gseven [visitA] hotelW 4 4).dist_matrix
      hotelW.id visitA.id ≤
    get_dist_time (TravelOptimizer.make gseven [visitA] hotelW 4 4).dist_matrix
      visitA.id hotelW.id :=
  ⟨by norm_num [gseven],
    hotel_travel_time_le gseven [visitA] hotelW 4 4 visitA (by decide)
      (List.mem_cons_self _ _) rfl (by decide) rfl (by norm_num [gseven])⟩

/-- C8: the tracked best energy never regresses (the final best energy is
at most the incoming one, at every suffix of the loop), it is a lower
bound of the energy of every (schedule, energy) pair evaluated during the
run, and the returned pair is the incoming best or one of the evaluated
pairs — independent of the currently accepted state. -/
theorem best_energy_min_observed (o : TravelOptimizer)
    (swapAt : Nat → Nat × Nat) (accept : Nat → Bool) (k i : Nat)
    (cur : List POI) (curE : ℤ) (bs : List POI) (be : ℤ)
    (res : List POI × ℤ) (hbe : be ≤ curE)
    (hs : sa_loop o swapAt accept k i cur curE bs be = .ok res) :
    res.2 ≤ be ∧
      (∀ q ∈ sa_observed o swapAt accept k i cur curE, res.2 ≤ q.2) ∧
      (res = (bs, be) ∨ res ∈ sa_observed o swapAt accept k i cur curE) :=
  sa_loop_best_min o swapAt accept k i cur curE bs be res hbe hs

/-- C8 witness: one concrete rejected iteration keeps the incoming best
pair, which bounds the single observed candidate. -/
theorem best_energy_min_observed_witness :
    ((-20000 : ℤ) ≤ -20000) ∧
    (([], -20000) : List POI × ℤ).2 ≤ -20000 ∧
      (∀ q ∈ sa_observed oW oracle_swap01 oracle_reject 1 0 [visitA, visitB]
        (-20000), (([], -20000) : List POI × ℤ).2 ≤ q.2) ∧
      ((([], -20000) : List POI × ℤ) = (([] : List POI), (-20000 : ℤ)) ∨
        (([], -20000) : List POI × ℤ) ∈ sa_observed oW oracle_swap01
          oracle_reject 1 0 [visitA, visitB] (-20000)) :=
  ⟨le_refl _,
    best_energy_min_observed oW oracle_swap01 oracle_reject 1 0
      [visitA, visitB] (-20000) [] (-20000) ([], -20000) (le_refl _) rfl⟩

/-- C9 counterexample: when the oversized POI is the only visit-POI, the
annealing step raises (models `random.sample` on a one-element population),
so no final output is produced and the POI does not surface as
unscheduled. -/
theorem oversized_single_visit_poi_raises :
    (TravelOptimizer.make gzero [bigPoi] hotelW 4 4).solve_simulated_annealing
      id oracle_swap01 oracle_reject 3000 = .error ERR_SAMPLE := rfl

/-- C9 amended: a visit-POI whose duration alone exceeds both period
budgets (including tolerance) is never placed by the packer in any
iteration, the day loop stays within the 10-day cap (the packer is a total
function), and whenever the annealing step does return a final list — it
raises instead when the oversized POI is the only visit-POI — the POI
appears in it stamped `day = 0`, `period = '-'` (unscheduled), with no
explicit error. -/
theorem oversized_poi_never_placed (g : POI → POI → ℚ) (pois : List POI)
    (hotel big : POI) (hM hT : Nat) (shuffle : List POI → List POI)
    (swapAt : Nat → Nat × Nat) (accept : Nat → Bool)
    (hg : ∀ p q, 0 ≤ g p q) (htm : ∀ x ∈ pois, 0 ≤ x.time_min)
    (hnd : (pois.map POI.id).Nodup) (hbig : big ∈ pois)
    (hbigM : (hM : ℤ) * 60 + 30 < big.time_min)
    (hbigT : (hT : ℤ) * 60 + 30 < big.time_min)
    (hsh : ∀ x ∈ shuffle pois, x ∈ pois) :
    (∀ ordered : List POI, (∀ x ∈ ordered, x ∈ pois) →
      ∀ e ∈ ((TravelOptimizer.make g pois hotel hM hT).evaluate_schedule
        ordered).schedule, e.id ≠ big.id ∧ e.day ≤ 10) ∧
    (∀ (iterations : Nat) (final : List POI),
      (TravelOptimizer.make g pois hotel hM hT).solve_simulated_annealing
        shuffle swapAt accept iterations = .ok final →
      { big with day := 0, period := some "-" } ∈ final) := by
  have hm : ∀ a b, 0 ≤ get_dist_time
      (TravelOptimizer.make g pois hotel hM hT).dist_matrix a b :=
    fun a b => get_dist_time_nonneg g pois hotel hg a b
  have hinj := List.inj_on_of_nodup_map hnd
  have hkey : ∀ ordered : List POI, (∀ x ∈ ordered, x ∈ pois) →
      ∀ e ∈ ((TravelOptimizer.make g pois hotel hM hT).evaluate_schedule
        ordered).schedule, e.id ≠ big.id ∧ e.day ≤ 10 := by
    intro ordered hsub e he
    have hspec := eval_sched_spec _ _ _ _ 10 1 ordered e he
    have hbound := eval_entry_bound _ _ _ _ hm 10 1 ordered
      (fun x hx => htm x (hsub x hx)) e he
    constructor
    · intro hid
      obtain ⟨x, hx, hxi, hxt⟩ := hspec.1
      have hxb : x = big := hinj (hsub x hx) hbig (by rw [hxi, hid])
      rw [hxb] at hxt
      have hMM : (TravelOptimizer.make g pois hotel hM hT).max_min_manha =
        (hM : ℤ) * 60 + 30 := rfl
      have hTT : (TravelOptimizer.make g pois hotel hM hT).max_min_tarde =
        (hT : ℤ) * 60 + 30 := rfl
      rw [hMM, hTT] at hbound
      omega
    · have hlt := hspec.2.2.1
      omega
  refine ⟨hkey, ?_⟩
  intro its final hsolve
  obtain ⟨bs, hbsP, hfin⟩ := solve_final_structure
    (TravelOptimizer.make g pois hotel hM hT) shuffle swapAt accept its final
    (fun e => e.id ≠ big.id)
    (fun sol hsub e he => (hkey sol hsub e he).1) hsh hsolve
  rw [hfin]
  apply assemble_mem_unvisited _ bs big hbig
  intro hmem
  rw [List.mem_map] at hmem
  obtain ⟨e, he, hei⟩ := hmem
  exact hbsP e he hei

/-- C9 amended, witness: on the concrete instance with one normal POI and
the oversized POI, a zero-iteration solve returns the final list in which
the oversized POI is stamped unscheduled. -/
theorem oversized_poi_never_placed_witness :
    bigPoi ∈ [visitA, bigPoi] ∧
    { bigPoi with day := 0, period := some "-" } ∈ final9 :=
  ⟨by decide,
    (oversized_poi_never_placed gzero [visitA, bigPoi] hotelW bigPoi 4 4 id
      oracle_swap01 oracle_reject (fun _ _ => le_refl 0) (by decide)
      (by decide) (by decide) (by norm_num [bigPoi]) (by norm_num [bigPoi])
      (fun x hx => hx)).2 0 final9 rfl⟩

/-- C10: the Day/Period Packer is deterministic — evaluating the same
explicit permutation against optimizers built from the same POIs, hotel
and budgets yields identical schedules, visited counts and total travel
times (the packer involves no randomness). -/
theorem packer_deterministic (g : POI → POI → ℚ) (pois : List POI)
    (hotel : POI) (hM hT : Nat) (ordered : List POI) :
    (TravelOptimizer.make g pois hotel hM hT).evaluate_schedule ordered =
    (TravelOptimizer.make g pois hotel hM hT).evaluate_schedule ordered :=
  rfl

end Roteiro
